import Mathlib

/-!
Size-limit parsing and the bounded response pipeline of hurl.

A shallow embedding of `main.go` of hurl (a command-line HTTP client).

Conventions of the embedding.

* A Go `string` is modelled by a Lean `String`, i.e. by its sequence of runes
  (the inputs are taken to be valid UTF-8, which is what `strings.TrimSpace`
  and `regexp` decode).  Functions that walk over a string work on `List Char`.
* A Go `int64` is modelled by an `Int`; arithmetic that can overflow is wrapped
  explicitly with `wrapInt64`.
* A Go `(T, error)` result is modelled by `Except`.
* Response bodies are sequences of bytes, `List UInt8`.
-/

deriving instance DecidableEq for Except

set_option maxRecDepth 4000

namespace Hurl

/-! ## Go library functions used by `parseSize` -/

/-- Go `unicode.IsSpace`: the Latin-1 spaces `\t \n \v \f \r`, space, U+0085, U+00A0,
and the runes of category Z / property Pattern_White_Space that Go lists. -/
def isSpace (c : Char) : Bool :=
  let n := c.toNat
  (9 ≤ n && n ≤ 13) || n == 0x20 || n == 0x85 || n == 0xA0 || n == 0x1680 ||
  (0x2000 ≤ n && n ≤ 0x200A) || n == 0x2028 || n == 0x2029 || n == 0x202F ||
  n == 0x205F || n == 0x3000

/-- Removal of the trailing runes that satisfy `p`. -/
def trimRight (p : Char → Bool) (s : List Char) : List Char :=
  (s.reverse.dropWhile p).reverse

/-- Go `strings.TrimSpace` on the runes of a string: all leading and trailing
white space (as defined by `unicode.IsSpace`) removed. -/
def trimSpace (s : List Char) : List Char :=
  trimRight isSpace (s.dropWhile isSpace)

/-- The regexp class `\d`: ASCII decimal digits only. -/
def isDigit (c : Char) : Bool := 48 ≤ c.toNat && c.toNat ≤ 57

/-- The regexp class `\s`: `[\t\n\f\r ]` (ASCII only, no vertical tab). -/
def isReSpace (c : Char) : Bool :=
  c == '\t' || c == '\n' || c.toNat == 12 || c == '\r' || c == ' '

/-- The runes matched by `(k|m|g|t)` under the flag `(?i)`.  Go folds case with
`unicode.SimpleFold`, whose orbit of `k` is `k`, `K` and U+212A KELVIN SIGN; the
orbits of `m`, `g`, `t` are the two ASCII letters. -/
def isUnitRune (c : Char) : Bool :=
  c == 'k' || c == 'K' || c.toNat == 0x212A ||
  c == 'm' || c == 'M' || c == 'g' || c == 'G' || c == 't' || c == 'T'

/-- The runes matched by `b` under the flag `(?i)`. -/
def isBRune (c : Char) : Bool := c == 'b' || c == 'B'

/-- The part `(k|m|g|t)?b?$` of the regexp, matched against what follows the
digit run and the white space: the slice of submatches `[whole, group 1,
group 2]` on a match (an unmatched group 2 is the empty string), the empty
slice otherwise.  A unit rune is not a `b` rune, so the optional unit is taken
whenever it is there. -/
def matchUnitSuffix (s digits : List Char) : List Char → List (List Char)
  | [] => [s, digits, []]
  | [c] => if isUnitRune c then [s, digits, [c]]
           else if isBRune c then [s, digits, []] else []
  | [c, b] => if isUnitRune c && isBRune b then [s, digits, [c]] else []
  | _ => []

/-- Result of `re.FindStringSubmatch` for the regexp
`(?i)^(\d+)\s*(k|m|g|t)?b?$`: the empty slice when there is no match, otherwise
`[whole match, group 1, group 2]`.  The character classes of the four parts are
pairwise disjoint, so the leftmost-first match is found by one greedy
left-to-right pass: the longest digit run, the white space after it, then the
unit suffix up to the end of the text. -/
def findStringSubmatch (s : List Char) : List (List Char) :=
  let digits := s.takeWhile isDigit
  let rest := (s.dropWhile isDigit).dropWhile isReSpace
  if digits = [] then [] else matchUnitSuffix s digits rest

/-- Go `unicode.ToLower` on the runes that group 2 of the regexp can capture and
on ASCII: upper-case ASCII letters and U+212A KELVIN SIGN go to their lower-case
letter.  (Other runes do not reach `strings.ToLower` in `parseSize`.) -/
def toLowerRune (c : Char) : Char :=
  if c.toNat = 0x212A then 'k'
  else if 65 ≤ c.toNat ∧ c.toNat ≤ 90 then Char.ofNat (c.toNat + 32)
  else c

/-- Go `strings.ToLower`. -/
def toLower (s : List Char) : List Char := s.map toLowerRune

/-- Value of a run of decimal digits, most significant first. -/
def digitsValue (s : List Char) : Nat :=
  s.foldl (fun acc c => 10 * acc + (c.toNat - 48)) 0

/-- The `Err` field of a `*strconv.NumError`. -/
inductive NumErrKind where
  | errSyntax
  | errRange
  deriving DecidableEq, Repr

/-- Errors returned by `parseSize`. -/
inductive ParseSizeError where
  /-- The error of `fmt.Errorf` with the format `invalid size format: %s` and `sizeStr`. -/
  | invalidSizeFormat (sizeStr : String)
  /-- The `*strconv.NumError` of `ParseInt` for the input `num`, returned unchanged. -/
  | numError (num : String) (kind : NumErrKind)
  deriving DecidableEq, Repr

/-- The text of `err.Error()`.  For a `NumError` the number is shown between
double quotes, which is what `strconv.Quote` gives for the digit runs that
`parseSize` passes to `ParseInt`. -/
def ParseSizeError.message : ParseSizeError → String
  | .invalidSizeFormat s => "invalid size format: " ++ s
  | .numError num .errSyntax => "strconv.ParseInt: parsing \"" ++ num ++ "\": invalid syntax"
  | .numError num .errRange => "strconv.ParseInt: parsing \"" ++ num ++ "\": value out of range"

/-- Go `strconv.ParseInt(s, 10, 64)`: an optional sign followed by at least one
decimal digit; `ErrSyntax` for anything else, `ErrRange` when the value is
outside the `int64` range. -/
def parseInt (s : List Char) : Except ParseSizeError Int :=
  let neg := s.head? = some '-'
  let body := match s with
    | '+' :: r => r
    | '-' :: r => r
    | _ => s
  if body = [] ∨ ¬ body.all isDigit = true then
    .error (.numError (String.mk s) .errSyntax)
  else
    let n := digitsValue body
    if neg then
      if n ≤ 2 ^ 63 then .ok (-(n : Int)) else .error (.numError (String.mk s) .errRange)
    else
      if n < 2 ^ 63 then .ok (n : Int) else .error (.numError (String.mk s) .errRange)

/-- Two's-complement wrap of an integer into the `int64` range, the result of
Go `int64` arithmetic (modulo `2^64`). -/
def wrapInt64 (x : Int) : Int := (x + 2 ^ 63) % 2 ^ 64 - 2 ^ 63

/-- The function `parseSize` of `main.go`. -/
def parseSize (sizeStr : String) : Except ParseSizeError Int :=
  if sizeStr = "-1" ∨ sizeStr = "" then .ok (-1)
  else
    let matched := findStringSubmatch (trimSpace sizeStr.data)
    if matched.length < 2 then .error (.invalidSizeFormat sizeStr)
    else
      match parseInt (matched.getD 1 []) with
      | .error err => .error err
      | .ok val =>
        let unit := toLower (matched.getD 2 [])
        if unit = ['k'] then .ok (wrapInt64 (val * 2 ^ 10))
        else if unit = ['m'] then .ok (wrapInt64 (val * 2 ^ 20))
        else if unit = ['g'] then .ok (wrapInt64 (val * 2 ^ 30))
        else if unit = ['t'] then .ok (wrapInt64 (val * 2 ^ 40))
        else .ok val


/-! ## The size grammar as the specification words it -/

/-- The multiplier table of the specification for the unit part of a size: no
unit letter means bytes, and the letters k, m, g, t in either case stand for
`2^10`, `2^20`, `2^30`, `2^40`.  Case is Unicode case: U+212A KELVIN SIGN is an
upper-case form of `k`.  Anything else is not a unit. -/
def unitMultiplier : List Char → Option Nat
  | [] => some 1
  | [c] =>
    if c = 'k' ∨ c = 'K' ∨ c = Char.ofNat 0x212A then some (2 ^ 10)
    else if c = 'm' ∨ c = 'M' then some (2 ^ 20)
    else if c = 'g' ∨ c = 'G' then some (2 ^ 30)
    else if c = 't' ∨ c = 'T' then some (2 ^ 40)
    else none
  | _ => none

/-- The four parts of a size specification: "one or more decimal digits,
optional whitespace, optional case-insensitive unit letter in {k, m, g, t},
optional trailing b". -/
structure SizeSpec where
  digits : List Char
  space : List Char
  unit : List Char
  b : List Char
  deriving DecidableEq, Repr

/-- The text a size specification stands for. -/
def SizeSpec.text (p : SizeSpec) : List Char := p.digits ++ p.space ++ p.unit ++ p.b

/-- Well-formedness of the four parts. -/
def SizeSpec.Valid (p : SizeSpec) : Prop :=
  p.digits ≠ [] ∧ (∀ c ∈ p.digits, isDigit c = true) ∧ (∀ c ∈ p.space, isReSpace c = true) ∧
    (unitMultiplier p.unit).isSome = true ∧ (p.b = [] ∨ p.b = ['b'] ∨ p.b = ['B'])

instance (p : SizeSpec) : Decidable p.Valid := by
  unfold SizeSpec.Valid; infer_instance

/-- A text has the shape of the size grammar. -/
def MatchesGrammar (t : List Char) : Prop := ∃ p : SizeSpec, p.Valid ∧ p.text = t

/-- The white space between the digits and the unit is what `strings.TrimSpace`
can remove from a text of the grammar, and only when nothing follows it. -/
def SizeSpec.trimmed (p : SizeSpec) : SizeSpec :=
  { p with space := if p.unit ++ p.b = [] then [] else p.space }

/-! ## The bounded byte stream -/

/-- Modelled from the spec: `SizeLimit` of section 3, "an integer number of bytes,
or a sentinel meaning unlimited".  (`NewMaxBytesReader` and `ErrBodyTooLarge`
are used by `main.go` but declared in a file that is not part of the sources
at hand.) -/
inductive SizeLimit where
  | unlimited
  | bytes (n : Nat)
  deriving DecidableEq, Repr

/-- Modelled from the spec: the `int64` that `parseSize` returns, read as a
`SizeLimit`; -1 is the unlimited sentinel (sections 4.1 and 4.5).  The spec
gives no meaning to other negative values; they are read as a limit of zero
bytes here. -/
def SizeLimit.ofInt64 (n : Int) : SizeLimit :=
  if n = -1 then .unlimited else .bytes n.toNat

/-- Modelled from the spec: the "readable byte stream" of a response body
(section 6).  It holds the bytes not yet read; one read hands out at most
`chunk + 1` of them, and reports end-of-stream once none is left. -/
structure Source where
  pending : List UInt8
  chunk : Nat
  deriving DecidableEq, Repr

/-- What a read reports besides the bytes: success, a normal end-of-stream, or
`ErrBodyTooLarge`. -/
inductive ReadStatus where
  | ok
  | eof
  | bodyTooLarge
  deriving DecidableEq, Repr

/-- Modelled from the spec: a read of at most `n` bytes from the source. -/
def Source.read (s : Source) (n : Nat) : List UInt8 × ReadStatus × Source :=
  if n = 0 then ([], .ok, s)
  else if s.pending = [] then ([], .eof, s)
  else
    let k := min n (s.chunk + 1)
    (s.pending.take k, .ok, { s with pending := s.pending.drop k })

/-- Modelled from the spec: `BoundedStream` of section 3: the wrapped source,
the limit and the running count of bytes delivered so far; `closed` records the
release of the source. -/
structure BoundedStream where
  source : Source
  limit : SizeLimit
  delivered : Nat
  closed : Bool
  deriving DecidableEq, Repr

/-- Modelled from the spec: `construct(source, limit)` of section 4.2, which is
`NewMaxBytesReader` in `main.go`. -/
def NewMaxBytesReader (source : Source) (limit : SizeLimit) : BoundedStream :=
  { source := source, limit := limit, delivered := 0, closed := false }

/-- Modelled from the spec: `read(buffer)` of section 4.2 with a buffer of `n`
bytes.  Unlimited: the read is the source's.  Finite: with
`remaining = limit - delivered_so_far`, when `remaining == 0` one byte is
probed beyond the limit and the call fails with `BodyTooLarge` if the probe
yields a byte, reports end-of-stream if it yields none; otherwise at most
`remaining` bytes are read and counted. -/
def BoundedStream.read (b : BoundedStream) (n : Nat) : List UInt8 × ReadStatus × BoundedStream :=
  match b.limit with
  | .unlimited =>
    let r := b.source.read n
    (r.1, r.2.1, { b with source := r.2.2 })
  | .bytes l =>
    let remaining := l - b.delivered
    if remaining = 0 then
      let probe := b.source.read 1
      if probe.1.length = 0 then ([], .eof, { b with source := probe.2.2 })
      else ([], .bodyTooLarge, { b with source := probe.2.2 })
    else
      let r := b.source.read (min n remaining)
      (r.1, r.2.1, { b with source := r.2.2, delivered := b.delivered + r.1.length })

/-- Modelled from the spec: `close()` of section 4.2; idempotent. -/
def BoundedStream.close (b : BoundedStream) : BoundedStream := { b with closed := true }

/-- The stream after a sequence of reads with the given buffer sizes. -/
def BoundedStream.readMany (b : BoundedStream) : List Nat → BoundedStream
  | [] => b
  | n :: ns => BoundedStream.readMany (b.read n).2.2 ns

/-- The error of a body read, as `processAndPrintResponse` tells them apart:
`ErrBodyTooLarge` or any other error. -/
inductive ReadError where
  | errBodyTooLarge
  | other (msg : String)
  deriving DecidableEq, Repr

/-- Reading to the end, as `copyb.ReadAll` (an `io.ReadAll`) does: reads with a
buffer of `bufSize` bytes until end-of-stream (the data, no error) or an error
(the data read so far and the error).  `none` when the fuel runs out. -/
def readAllFuel (bufSize : Nat) :
    Nat → BoundedStream → List UInt8 → Option ((List UInt8 × Option ReadError) × BoundedStream)
  | 0, _, _ => none
  | fuel + 1, b, acc =>
    match b.read bufSize with
    | (bs, .ok, b1) => readAllFuel bufSize fuel b1 (acc ++ bs)
    | (bs, .eof, b1) => some ((acc ++ bs, none), b1)
    | (bs, .bodyTooLarge, b1) => some ((acc ++ bs, some .errBodyTooLarge), b1)

/-- Reading to the end with the fuel that always suffices: one read per pending
byte and one more for the end of the stream. -/
def BoundedStream.readAll (bufSize : Nat) (b : BoundedStream) :
    (List UInt8 × Option ReadError) × BoundedStream :=
  (readAllFuel bufSize (b.source.pending.length + 1) b []).getD (([], none), b)

/-! ## `processAndPrintResponse` -/

/-- The type `colorScheme` of `main.go`. -/
structure colorScheme where
  Reset : String
  Red : String
  Green : String
  Yellow : String
  Orange : String
  Blue : String
  Cyan : String
  deriving DecidableEq, Repr

/-- The global `colors` after `init`: ANSI escapes when stdout is a terminal,
empty strings otherwise. -/
def initColors (stdoutIsTerminal : Bool) : colorScheme :=
  if stdoutIsTerminal then
    { Reset := "\x1b[0m", Red := "\x1b[31m", Green := "\x1b[32m", Yellow := "\x1b[33m",
      Orange := "\x1b[38;5;208m", Blue := "\x1b[34m", Cyan := "\x1b[36m" }
  else
    { Reset := "", Red := "", Green := "", Yellow := "", Orange := "", Blue := "", Cyan := "" }

/-- The constant `defaultTerminalMaxSize` of `main.go`. -/
def defaultTerminalMaxSize : String := "1MB"

/-- The global state `processAndPrintResponse` reads: the flags `-i` and
`--max-size`, the colours, and whether stdout is a terminal
(`isatty.IsTerminal(os.Stdout.Fd())`). -/
structure Globals where
  includeHeaders : Bool
  maxSizeStr : String
  colors : colorScheme
  stdoutIsTerminal : Bool
  deriving DecidableEq, Repr

/-- The fields of `*http.Response` that are used.  `Header` lists the header map
in the order the `range` loop visits it; `Method` is `resp.Request.Method`;
`Body` is the state of the body stream. -/
structure Response (β : Type) where
  Proto : String
  Status : String
  StatusCode : Int
  Header : List (String × List String)
  Method : String
  Body : β

/-- The functions applied to the response body, which are not defined in
`main.go`: `NewMaxBytesReader(resp.Body, maxBytes)`, `copyb.ReadAll(limitedBody)`
(the bytes read, the error if any, and the stream afterwards) and
`limitedBody.Close()`. -/
structure BodyReader (β ρ : Type) where
  newMaxBytesReader : β → Int → ρ
  readAll : ρ → (List UInt8 × Option ReadError) × ρ
  close : ρ → ρ

/-- The JSON functions of `go-json-experiment/json`: `json.Unmarshal(body, &v)`
(`none` when it returns an error) and `json.Marshal(v, jsontext.Multiline(true),
jsontext.WithIndent("  "))` (`none` when it returns an error). -/
structure JSONCodec (V : Type) where
  unmarshal : List UInt8 → Option V
  marshal : V → Option (List UInt8)

/-- What is written to stdout: text, or the bytes of a `[]byte` converted with
`string(...)`. -/
inductive Output where
  | text (s : String)
  | bytes (b : List UInt8)
  deriving DecidableEq, Repr

/-- The errors `processAndPrintResponse` returns. -/
inductive ProcessError where
  /-- The error of `parseSize`, returned unchanged. -/
  | parse (err : ParseSizeError)
  /-- The error `ErrBodyTooLarge` wrapped with the default terminal limit. -/
  | tooLargeDefault (limit : String)
  /-- The error `ErrBodyTooLarge` wrapped with the `--max-size` string. -/
  | tooLarge (maxSizeStr : String)
  /-- Any other read error, wrapped as a failure to read the response body. -/
  | readFailed (err : ReadError)
  deriving DecidableEq, Repr

/-- What a call of `processAndPrintResponse` does: the writes to stdout in order,
the error returned (`none` for `nil`), and the limited body after the deferred
`Close` (`none` when the function returns before wrapping the body). -/
structure Outcome (ρ : Type) where
  stdout : List Output
  err : Option ProcessError
  limitedBody : Option ρ

/-- Go `http.Header.Get` for a key in canonical form: the first value of the
key, "" when the key is absent or has no value. -/
def headerGet (h : List (String × List String)) (key : String) : String :=
  match h.find? (fun kv => kv.1 == key) with
  | some (_, v :: _) => v
  | _ => ""

/-- Go `strings.Contains`. -/
def stringsContains : List Char → List Char → Bool
  | [], sub => sub.isEmpty
  | c :: s, sub => sub.isPrefixOf (c :: s) || stringsContains s sub

/-- The size string `processAndPrintResponse` parses and whether it is the
terminal default (lines 454 to 460). -/
def effectiveMaxSize (maxSizeStr : String) (stdoutIsTerminal : Bool) : String × Bool :=
  if maxSizeStr = "" ∧ stdoutIsTerminal = true then (defaultTerminalMaxSize, true)
  else (maxSizeStr, false)

/-- The byte limit `processAndPrintResponse` hands to `NewMaxBytesReader`
(line 462), or the error of `parseSize`. -/
def responseLimit (maxSizeStr : String) (stdoutIsTerminal : Bool) : Except ParseSizeError Int :=
  parseSize (effectiveMaxSize maxSizeStr stdoutIsTerminal).1

/-- The colour of the status, by class of the status code. -/
def statusColor (colors : colorScheme) (statusCode : Int) : String :=
  if 200 ≤ statusCode ∧ statusCode < 300 then colors.Green
  else if 300 ≤ statusCode ∧ statusCode < 400 then colors.Yellow
  else if 400 ≤ statusCode ∧ statusCode < 500 then colors.Orange
  else colors.Red

/-- The header block (lines 471 to 486): the protocol and status line, one line
per header key with its values joined by ", ", and an empty line. -/
def printHeaders {β : Type} (colors : colorScheme) (resp : Response β) : List Output :=
  [Output.text (colors.Cyan ++ resp.Proto ++ colors.Reset ++ " " ++
      statusColor colors resp.StatusCode ++ resp.Status ++ colors.Reset ++ "\n")] ++
    resp.Header.map (fun kv =>
      Output.text (colors.Blue ++ kv.1 ++ colors.Reset ++ ": " ++ ", ".intercalate kv.2 ++ "\n")) ++
    [Output.text "\n"]

/-- The function `processAndPrintResponse` of `main.go`. -/
def processAndPrintResponse {β ρ V : Type} (g : Globals) (R : BodyReader β ρ) (J : JSONCodec V)
    (resp : Response β) : Outcome ρ :=
  let effective := effectiveMaxSize g.maxSizeStr g.stdoutIsTerminal
  let isDefaultLimit := effective.2
  match responseLimit g.maxSizeStr g.stdoutIsTerminal with
  | .error err => { stdout := [], err := some (.parse err), limitedBody := none }
  | .ok maxBytes =>
    let limitedBody := R.newMaxBytesReader resp.Body maxBytes
    let out :=
      if g.includeHeaders = true ∨ resp.Method = "HEAD" then printHeaders g.colors resp else []
    if resp.Method = "HEAD" then
      { stdout := out, err := none, limitedBody := some (R.close limitedBody) }
    else
      let r := R.readAll limitedBody
      let body := r.1.1
      match r.1.2 with
      | some err =>
        if err = .errBodyTooLarge then
          if isDefaultLimit then
            { stdout := out, err := some (.tooLargeDefault defaultTerminalMaxSize),
              limitedBody := some (R.close r.2) }
          else
            { stdout := out, err := some (.tooLarge g.maxSizeStr),
              limitedBody := some (R.close r.2) }
        else
          { stdout := out, err := some (.readFailed err), limitedBody := some (R.close r.2) }
      | none =>
        let raw : Outcome ρ :=
          { stdout := out ++ [.bytes body, .text "\n"], err := none,
            limitedBody := some (R.close r.2) }
        if stringsContains (headerGet resp.Header "Content-Type").data
            "application/json".data then
          match J.unmarshal body with
          | some v =>
            match J.marshal v with
            | some prettyJSON =>
              { stdout := out ++ [.bytes prettyJSON, .text "\n"], err := none,
                limitedBody := some (R.close r.2) }
            | none => raw
          | none => raw
        else raw

/-- The bounded stream of the specification as the body reader of
`processAndPrintResponse`, with `copyb.ReadAll` reading through a buffer of
`bufSize` bytes. -/
def specBodyReader (bufSize : Nat) : BodyReader Source BoundedStream where
  newMaxBytesReader := fun body maxBytes => NewMaxBytesReader body (SizeLimit.ofInt64 maxBytes)
  readAll := fun b => b.readAll bufSize
  close := fun b => b.close

/-- A response with one `Content-Type` header and the given body, for the
examples. -/
def sampleResponse (method contentType : String) (body : List UInt8) : Response Source :=
  { Proto := "HTTP/1.1", Status := "200 OK", StatusCode := 200,
    Header := [("Content-Type", [contentType])], Method := method, Body := ⟨body, 0⟩ }

/-- A JSON library that accepts objects only, that is bodies that start with
`{`, and prints them back unchanged, for the examples. -/
def sampleCodec : JSONCodec (List UInt8) :=
  { unmarshal := fun b => if b.head? = some 123 then some b else none
    marshal := fun v => some v }

/-! ## Character classes are pairwise disjoint -/

theorem isReSpace_isSpace {c : Char} (h : isReSpace c = true) : isSpace c = true := by
  simp only [isReSpace, Bool.or_eq_true, beq_iff_eq] at h
  rcases h with (((h | h) | h) | h) | h
  · subst h; decide
  · subst h; decide
  · simp only [isSpace, h]; decide
  · subst h; decide
  · subst h; decide

theorem isDigit_not_isSpace {c : Char} (h : isDigit c = true) : isSpace c = false := by
  simp only [isDigit, Bool.and_eq_true, decide_eq_true_eq] at h
  simp only [isSpace, Bool.or_eq_false_iff, Bool.and_eq_false_imp, decide_eq_true_eq,
    decide_eq_false_iff_not, beq_eq_false_iff_ne, ne_eq]
  omega

theorem isUnitRune_cases {c : Char} (h : isUnitRune c = true) :
    c = 'k' ∨ c = 'K' ∨ c = Char.ofNat 0x212A ∨ c = 'm' ∨ c = 'M' ∨ c = 'g' ∨ c = 'G' ∨
      c = 't' ∨ c = 'T' := by
  simp only [isUnitRune, Bool.or_eq_true, beq_iff_eq] at h
  have hk : c.toNat = 0x212A → c = Char.ofNat 0x212A := fun e => by
    rw [← e, Char.ofNat_toNat]
  tauto

theorem isBRune_cases {c : Char} (h : isBRune c = true) : c = 'b' ∨ c = 'B' := by
  simpa only [isBRune, Bool.or_eq_true, beq_iff_eq] using h

theorem isUnitRune_classes {c : Char} (h : isUnitRune c = true) :
    isSpace c = false ∧ isDigit c = false ∧ isReSpace c = false ∧ isBRune c = false := by
  rcases isUnitRune_cases h with h | h | h | h | h | h | h | h | h <;> subst h <;> decide

theorem isBRune_classes {c : Char} (h : isBRune c = true) :
    isSpace c = false ∧ isDigit c = false ∧ isReSpace c = false ∧ isUnitRune c = false := by
  rcases isBRune_cases h with h | h <;> subst h <;> decide

theorem isReSpace_not_isDigit {c : Char} (h : isReSpace c = true) : isDigit c = false := by
  cases hd : isDigit c
  · rfl
  · have := isDigit_not_isSpace hd
    rw [isReSpace_isSpace h] at this
    exact absurd this (by decide)

/-! ## Lists: prefixes and suffixes singled out by a predicate -/

theorem takeWhile_append_stop {p : Char → Bool} (xs ys : List Char) (hx : ∀ c ∈ xs, p c = true)
    (hy : ∀ c ∈ ys.head?, p c = false) : (xs ++ ys).takeWhile p = xs := by
  rw [List.takeWhile_append_of_pos hx]
  cases ys with
  | nil => simp
  | cons y ys =>
    have : p y = false := hy y (by simp)
    simp [List.takeWhile_cons, this]

theorem dropWhile_append_stop {p : Char → Bool} (xs ys : List Char) (hx : ∀ c ∈ xs, p c = true)
    (hy : ∀ c ∈ ys.head?, p c = false) : (xs ++ ys).dropWhile p = ys := by
  rw [List.dropWhile_append_of_pos hx]
  cases ys with
  | nil => simp
  | cons y ys =>
    have : p y = false := hy y (by simp)
    simp [List.dropWhile_cons, this]

theorem trimSpace_eq (s : List Char) : trimSpace s = trimRight isSpace (s.dropWhile isSpace) := rfl

theorem trimRight_append_all {p : Char → Bool} (s w : List Char) (hw : ∀ c ∈ w, p c = true) :
    trimRight p (s ++ w) = trimRight p s := by
  unfold trimRight
  rw [List.reverse_append, List.dropWhile_append_of_pos]
  intro c hc
  exact hw c (List.mem_reverse.mp hc)

theorem trimRight_all {p : Char → Bool} (w : List Char) (hw : ∀ c ∈ w, p c = true) :
    trimRight p w = [] := by
  have := trimRight_append_all [] w hw
  simpa [trimRight] using this

theorem trimRight_append_stop {p : Char → Bool} (s : List Char) (c : Char) (hc : p c = false) :
    trimRight p (s ++ [c]) = s ++ [c] := by
  unfold trimRight
  simp [List.dropWhile_cons, hc]

/-- White space around a string does not change what `strings.TrimSpace` returns. -/
theorem trimSpace_pad (w1 s w2 : List Char) (h1 : ∀ c ∈ w1, isSpace c = true)
    (h2 : ∀ c ∈ w2, isSpace c = true) : trimSpace (w1 ++ s ++ w2) = trimSpace s := by
  rw [trimSpace_eq, trimSpace_eq, List.append_assoc, List.dropWhile_append_of_pos h1,
    List.dropWhile_append]
  split
  · rename_i hnil
    rw [List.isEmpty_iff.mp hnil, trimRight_all _ (fun c hc => by
      have := (List.dropWhile_suffix isSpace).subset hc
      exact h2 c this)]
    rfl
  · exact trimRight_append_all _ _ h2

/-! ## The regexp match computes the grammar -/

theorem unitMultiplier_isSome {u : List Char} (h : (unitMultiplier u).isSome = true) :
    u = [] ∨ ∃ c, u = [c] ∧ isUnitRune c = true := by
  match u, h with
  | [], _ => exact Or.inl rfl
  | [c], h =>
    refine Or.inr ⟨c, rfl, ?_⟩
    simp only [unitMultiplier] at h
    simp only [isUnitRune, Bool.or_eq_true, beq_iff_eq]
    split_ifs at h with h1 h2 h3 h4
    · rcases h1 with h1 | h1 | h1
      · tauto
      · tauto
      · subst h1; decide
    · tauto
    · tauto
    · tauto
    · exact absurd h (by decide)
  | _ :: _ :: _, h => exact absurd h (by simp [unitMultiplier])

theorem b_cases {b : List Char} (h : b = [] ∨ b = ['b'] ∨ b = ['B']) :
    b = [] ∨ ∃ c, b = [c] ∧ isBRune c = true := by
  rcases h with h | h | h
  · exact Or.inl h
  · exact Or.inr ⟨'b', h, by decide⟩
  · exact Or.inr ⟨'B', h, by decide⟩

theorem findStringSubmatch_eq (s d rest : List Char) (h1 : s.takeWhile isDigit = d)
    (h2 : (s.dropWhile isDigit).dropWhile isReSpace = rest) (hd : d ≠ []) :
    findStringSubmatch s = matchUnitSuffix s d rest := by
  subst h1 h2
  unfold findStringSubmatch
  simp only [if_neg hd]

/-- On a text of the grammar the regexp matches, with the digit run in group 1
and the unit letter (or nothing) in group 2. -/
theorem findStringSubmatch_text (p : SizeSpec) (hv : p.Valid) :
    findStringSubmatch p.text = [p.text, p.digits, p.unit] := by
  obtain ⟨d, ws, u, b⟩ := p
  obtain ⟨hd, hdig, hws, hu, hb⟩ := hv
  simp only at hd hdig hws hu hb
  simp only [SizeSpec.text]
  have hsp : ∀ c ∈ ws, isDigit c = false := fun c hc => isReSpace_not_isDigit (hws c hc)
  have key : ∀ tail : List Char, (∀ c ∈ tail.head?, isDigit c = false ∧ isReSpace c = false) →
      List.takeWhile isDigit (d ++ ws ++ tail) = d ∧
      List.dropWhile isReSpace (List.dropWhile isDigit (d ++ ws ++ tail)) = tail := by
    intro tail ht
    have h1 : ∀ c ∈ (ws ++ tail).head?, isDigit c = false := by
      intro c hc
      cases ws with
      | nil => exact (ht c (by simpa using hc)).1
      | cons w ws =>
        simp only [List.cons_append, List.head?_cons, Option.mem_def, Option.some.injEq] at hc
        subst hc; exact hsp _ (by simp)
    rw [List.append_assoc, takeWhile_append_stop d _ hdig h1, dropWhile_append_stop d _ hdig h1,
      dropWhile_append_stop ws _ hws (fun c hc => (ht c hc).2)]
    exact ⟨rfl, rfl⟩
  rcases unitMultiplier_isSome hu with rfl | ⟨c, rfl, hc⟩ <;>
    rcases b_cases hb with rfl | ⟨c2, rfl, hc2⟩
  · have := key [] (by simp)
    rw [List.append_nil]
    rw [findStringSubmatch_eq _ _ _ this.1 this.2 hd]
    rfl
  · have := key [c2] (by
      intro c hc; simp only [List.head?_cons, Option.mem_def, Option.some.injEq] at hc
      subst hc; exact ⟨(isBRune_classes hc2).2.1, (isBRune_classes hc2).2.2.1⟩)
    rw [List.append_nil]
    rw [findStringSubmatch_eq _ _ _ this.1 this.2 hd]
    simp [matchUnitSuffix, hc2, (isBRune_classes hc2).2.2.2]
  · have := key [c] (by
      intro c' hc'; simp only [List.head?_cons, Option.mem_def, Option.some.injEq] at hc'
      subst hc'; exact ⟨(isUnitRune_classes hc).2.1, (isUnitRune_classes hc).2.2.1⟩)
    rw [List.append_nil]
    rw [findStringSubmatch_eq _ _ _ this.1 this.2 hd]
    simp [matchUnitSuffix, hc]
  · have := key [c, c2] (by
      intro c' hc'; simp only [List.head?_cons, Option.mem_def, Option.some.injEq] at hc'
      subst hc'; exact ⟨(isUnitRune_classes hc).2.1, (isUnitRune_classes hc).2.2.1⟩)
    have e : d ++ ws ++ [c] ++ [c2] = d ++ ws ++ [c, c2] := by simp
    rw [e, findStringSubmatch_eq _ _ _ this.1 this.2 hd]
    simp [matchUnitSuffix, hc, hc2]

theorem unitMultiplier_of_isUnitRune {c : Char} (h : isUnitRune c = true) :
    (unitMultiplier [c]).isSome = true := by
  rcases isUnitRune_cases h with h | h | h | h | h | h | h | h | h <;> subst h <;> decide

/-- A text the regexp matches has the shape of the grammar. -/
theorem matchesGrammar_of_findStringSubmatch (t : List Char) (h : findStringSubmatch t ≠ []) :
    MatchesGrammar t := by
  have hd : t.takeWhile isDigit ≠ [] := by
    intro e
    apply h
    unfold findStringSubmatch
    simp only [e, if_true]
  rw [findStringSubmatch_eq t _ _ rfl rfl hd] at h
  have ht : t = t.takeWhile isDigit ++ (t.dropWhile isDigit).takeWhile isReSpace ++
      (t.dropWhile isDigit).dropWhile isReSpace := by
    rw [List.append_assoc, List.takeWhile_append_dropWhile, List.takeWhile_append_dropWhile]
  have hdig : ∀ c ∈ t.takeWhile isDigit, isDigit c = true := fun c hc => List.mem_takeWhile_imp hc
  have hws : ∀ c ∈ (t.dropWhile isDigit).takeWhile isReSpace, isReSpace c = true :=
    fun c hc => List.mem_takeWhile_imp hc
  generalize (t.dropWhile isDigit).dropWhile isReSpace = rest at h ht
  generalize (t.dropWhile isDigit).takeWhile isReSpace = ws at ht hws
  generalize t.takeWhile isDigit = d at h ht hd hdig
  match rest, h, ht with
  | [], _, ht =>
    exact ⟨⟨d, ws, [], []⟩, ⟨hd, hdig, hws, rfl, Or.inl rfl⟩, by simp [SizeSpec.text, ht]⟩
  | [c], h, ht =>
    by_cases hu : isUnitRune c = true
    · exact ⟨⟨d, ws, [c], []⟩, ⟨hd, hdig, hws, unitMultiplier_of_isUnitRune hu, Or.inl rfl⟩,
        by simp [SizeSpec.text, ht]⟩
    · by_cases hb : isBRune c = true
      · refine ⟨⟨d, ws, [], [c]⟩, ⟨hd, hdig, hws, rfl, ?_⟩, by simp [SizeSpec.text, ht]⟩
        rcases isBRune_cases hb with e | e <;> simp [e]
      · simp [matchUnitSuffix, hu, hb] at h
  | [c, b], h, ht =>
    by_cases hu : isUnitRune c = true
    · by_cases hb : isBRune b = true
      · refine ⟨⟨d, ws, [c], [b]⟩, ⟨hd, hdig, hws, unitMultiplier_of_isUnitRune hu, ?_⟩,
          by simp [SizeSpec.text, ht]⟩
        rcases isBRune_cases hb with e | e <;> simp [e]
      · simp [matchUnitSuffix, hu, hb] at h
    · simp [matchUnitSuffix, hu] at h
  | _ :: _ :: _ :: _, h, _ => simp [matchUnitSuffix] at h

/-- The regexp matches exactly the texts of the grammar. -/
theorem findStringSubmatch_ne_nil_iff (t : List Char) :
    findStringSubmatch t ≠ [] ↔ MatchesGrammar t := by
  constructor
  · exact matchesGrammar_of_findStringSubmatch t
  · rintro ⟨p, hv, rfl⟩
    rw [findStringSubmatch_text p hv]
    exact List.cons_ne_nil _ _


/-! ## `strings.TrimSpace` on a text of the grammar -/

theorem dropWhile_isSpace_of_digit (d rest : List Char) (hd : d ≠ [])
    (hdig : ∀ c ∈ d, isDigit c = true) :
    (d ++ rest).dropWhile isSpace = d ++ rest := by
  cases d with
  | nil => exact absurd rfl hd
  | cons c d =>
    have : isSpace c = false := isDigit_not_isSpace (hdig c (by simp))
    simp [List.dropWhile_cons, this]

theorem trimRight_digits (d : List Char) (hdig : ∀ c ∈ d, isDigit c = true) :
    trimRight isSpace d = d := by
  rcases List.eq_nil_or_concat d with rfl | ⟨d1, c, h⟩
  · rfl
  · rw [List.concat_eq_append] at h
    subst h
    exact trimRight_append_stop _ _ (isDigit_not_isSpace (hdig c (by simp)))

theorem SizeSpec.trimmed_valid (p : SizeSpec) (hv : p.Valid) : p.trimmed.Valid := by
  obtain ⟨hd, hdig, hws, hu, hb⟩ := hv
  refine ⟨hd, hdig, ?_, hu, hb⟩
  intro c hc
  simp only [SizeSpec.trimmed] at hc
  split_ifs at hc
  · simp at hc
  · exact hws c hc

theorem trimSpace_text (p : SizeSpec) (hv : p.Valid) : trimSpace p.text = p.trimmed.text := by
  obtain ⟨d, ws, u, b⟩ := p
  obtain ⟨hd, hdig, hws, hu, hb⟩ := hv
  simp only at hd hdig hws hu hb
  have hws2 : ∀ c ∈ ws, isSpace c = true := fun c hc => isReSpace_isSpace (hws c hc)
  simp only [SizeSpec.text, SizeSpec.trimmed, trimSpace_eq]
  rw [List.append_assoc, List.append_assoc, dropWhile_isSpace_of_digit d _ hd hdig]
  rcases unitMultiplier_isSome hu with rfl | ⟨c, rfl, hc⟩ <;>
    rcases b_cases hb with rfl | ⟨c2, rfl, hc2⟩
  · simp only [List.append_nil, if_true]
    rw [trimRight_append_all _ _ hws2, trimRight_digits d hdig]
  · have e : d ++ (ws ++ ([] ++ [c2])) = (d ++ ws) ++ [c2] := by simp
    rw [e, trimRight_append_stop _ _ (isBRune_classes hc2).1]
    simp
  · have e : d ++ (ws ++ ([c] ++ [])) = (d ++ ws) ++ [c] := by simp
    rw [e, trimRight_append_stop _ _ (isUnitRune_classes hc).1]
    simp
  · have e : d ++ (ws ++ ([c] ++ [c2])) = (d ++ ws ++ [c]) ++ [c2] := by simp
    rw [e, trimRight_append_stop _ _ (isBRune_classes hc2).1]
    simp

/-- What `parseSize` gets from the regexp on a text of the grammar. -/
theorem findStringSubmatch_trimSpace_text (p : SizeSpec) (hv : p.Valid) :
    findStringSubmatch (trimSpace p.text) = [p.trimmed.text, p.digits, p.unit] := by
  rw [trimSpace_text p hv, findStringSubmatch_text _ (p.trimmed_valid hv)]
  rfl

/-! ## `strconv.ParseInt` on a digit run -/

theorem parseInt_digits (d : List Char) (hd : d ≠ []) (hdig : ∀ c ∈ d, isDigit c = true) :
    parseInt d =
      if digitsValue d < 2 ^ 63 then .ok (digitsValue d : Int)
      else .error (.numError (String.mk d) .errRange) := by
  cases d with
  | nil => exact absurd rfl hd
  | cons c d =>
    have hc : isDigit c = true := hdig c (by simp)
    have h1 : c ≠ '+' := by rintro rfl; exact absurd hc (by decide)
    have h2 : c ≠ '-' := by rintro rfl; exact absurd hc (by decide)
    have hall : (c :: d).all isDigit = true := List.all_eq_true.mpr hdig
    unfold parseInt
    have hbody : (match c :: d with
        | '+' :: r => r
        | '-' :: r => r
        | _ => c :: d) = c :: d := by
      split
      · rename_i heq; exact absurd (List.cons.inj heq).1 h1
      · rename_i heq; exact absurd (List.cons.inj heq).1 h2
      · rfl
    simp only [hbody, hall]
    simp [h2]

/-! ## The unit switch -/

theorem wrapInt64_of_fits (x : Int) (h0 : 0 ≤ x) (h1 : x < 2 ^ 63) : wrapInt64 x = x := by
  unfold wrapInt64
  norm_num at h1 ⊢
  omega

theorem unit_lower_cases {u : List Char} {m : Nat} (h : unitMultiplier u = some m) :
    (u = [] ∧ m = 1) ∨ (toLower u = ['k'] ∧ m = 2 ^ 10) ∨ (toLower u = ['m'] ∧ m = 2 ^ 20) ∨
      (toLower u = ['g'] ∧ m = 2 ^ 30) ∨ (toLower u = ['t'] ∧ m = 2 ^ 40) := by
  have hs : (unitMultiplier u).isSome = true := by rw [h]; rfl
  rcases unitMultiplier_isSome hs with rfl | ⟨c, rfl, hc⟩
  · left
    simp only [unitMultiplier, Option.some.injEq] at h
    exact ⟨rfl, h.symm⟩
  · right
    have hk : ∀ c0 : Char, ∀ m0 : Nat, unitMultiplier [c0] = some m0 → c = c0 →
        unitMultiplier [c] = some m0 := fun c0 m0 h0 e => e ▸ h0
    rcases isUnitRune_cases hc with e | e | e | e | e | e | e | e | e
    · have := hk _ (2 ^ 10) (by decide) e
      rw [h, Option.some.injEq] at this
      subst e; exact Or.inl ⟨by decide, this⟩
    · have := hk _ (2 ^ 10) (by decide) e
      rw [h, Option.some.injEq] at this
      subst e; exact Or.inl ⟨by decide, this⟩
    · have := hk _ (2 ^ 10) (by decide) e
      rw [h, Option.some.injEq] at this
      subst e; exact Or.inl ⟨by decide, this⟩
    · have := hk _ (2 ^ 20) (by decide) e
      rw [h, Option.some.injEq] at this
      subst e; exact Or.inr (Or.inl ⟨by decide, this⟩)
    · have := hk _ (2 ^ 20) (by decide) e
      rw [h, Option.some.injEq] at this
      subst e; exact Or.inr (Or.inl ⟨by decide, this⟩)
    · have := hk _ (2 ^ 30) (by decide) e
      rw [h, Option.some.injEq] at this
      subst e; exact Or.inr (Or.inr (Or.inl ⟨by decide, this⟩))
    · have := hk _ (2 ^ 30) (by decide) e
      rw [h, Option.some.injEq] at this
      subst e; exact Or.inr (Or.inr (Or.inl ⟨by decide, this⟩))
    · have := hk _ (2 ^ 40) (by decide) e
      rw [h, Option.some.injEq] at this
      subst e; exact Or.inr (Or.inr (Or.inr ⟨by decide, this⟩))
    · have := hk _ (2 ^ 40) (by decide) e
      rw [h, Option.some.injEq] at this
      subst e; exact Or.inr (Or.inr (Or.inr ⟨by decide, this⟩))

theorem text_ne_sentinel (p : SizeSpec) (hv : p.Valid) :
    ¬ (String.mk p.text = "-1" ∨ String.mk p.text = "") := by
  obtain ⟨d, ws, u, b⟩ := p
  obtain ⟨hd, hdig, -⟩ := hv
  simp only at hd hdig
  cases d with
  | nil => exact absurd rfl hd
  | cons c d =>
    have hc : isDigit c = true := hdig c (by simp)
    have h2 : c ≠ '-' := by rintro rfl; exact absurd hc (by decide)
    rintro (h | h)
    · have := congrArg String.data h
      simp only [SizeSpec.text, List.cons_append] at this
      exact h2 (List.cons.inj this).1
    · have := congrArg String.data h
      simp only [SizeSpec.text, List.cons_append] at this
      exact absurd this (List.cons_ne_nil _ _)

/-- The value of `parseSize` on every text of the grammar: a range error from
`strconv.ParseInt` when the digit run does not fit `int64`, otherwise the digit
value times the multiplier, wrapped to `int64`. -/
theorem parseSize_text (p : SizeSpec) (m : Nat) (hv : p.Valid)
    (hm : unitMultiplier p.unit = some m) :
    parseSize (String.mk p.text) =
      if digitsValue p.digits < 2 ^ 63 then .ok (wrapInt64 ((digitsValue p.digits : Int) * m))
      else .error (.numError (String.mk p.digits) .errRange) := by
  unfold parseSize
  rw [if_neg (text_ne_sentinel p hv)]
  simp only [findStringSubmatch_trimSpace_text p hv, List.length_cons, List.length_nil,
    List.getD_cons_succ, List.getD_cons_zero]
  rw [parseInt_digits p.digits hv.1 hv.2.1]
  by_cases hfit : digitsValue p.digits < 2 ^ 63
  · simp only [if_pos hfit]
    rcases unit_lower_cases hm with ⟨hu, rfl⟩ | ⟨hu, rfl⟩ | ⟨hu, rfl⟩ | ⟨hu, rfl⟩ | ⟨hu, rfl⟩
    · have hw : wrapInt64 ((digitsValue p.digits : Int) * (1 : Nat)) = digitsValue p.digits := by
        rw [Nat.cast_one, mul_one]
        exact wrapInt64_of_fits _ (Int.natCast_nonneg _) (by exact_mod_cast hfit)
      rw [hw, hu]
      simp [toLower]
    · simp [hu]
    · simp [hu]
    · simp [hu]
    · simp [hu]
  · simp only [if_neg hfit]
    simp

/-! ## Padding with white space -/

theorem pad_eq_sentinel (w1 s w2 : List Char) (h1 : ∀ c ∈ w1, isSpace c = true)
    (h2 : ∀ c ∈ w2, isSpace c = true) (h : w1 ++ s ++ w2 = ['-', '1']) : s = ['-', '1'] := by
  cases w1 with
  | cons c w1 =>
    have hc : c = '-' := (List.cons.inj h).1
    have := h1 c (by simp)
    rw [hc] at this
    exact absurd this (by decide)
  | nil =>
    rcases List.eq_nil_or_concat w2 with rfl | ⟨w, c, e⟩
    · simpa using h
    · rw [List.concat_eq_append] at e
      subst e
      have hl := congrArg List.getLast? h
      have hc : c = '1' := by
        have e1 : ['-', '1'].getLast? = some '1' := rfl
        rw [← List.append_assoc, List.getLast?_append, e1, List.getLast?_singleton] at hl
        simpa using hl
      have := h2 c (by simp)
      rw [hc] at this
      exact absurd this (by decide)

theorem pad_ne_sentinel (w1 s w2 : String) (hs1 : s ≠ "") (hs2 : s ≠ "-1")
    (h1 : ∀ c ∈ w1.data, isSpace c = true) (h2 : ∀ c ∈ w2.data, isSpace c = true) :
    ¬ (w1 ++ s ++ w2 = "-1" ∨ w1 ++ s ++ w2 = "") := by
  rintro (h | h)
  · have := congrArg String.data h
    simp only [String.data_append] at this
    exact hs2 (String.ext (pad_eq_sentinel _ _ _ h1 h2 this))
  · have := congrArg String.data h
    simp only [String.data_append] at this
    have hs : s.data = [] := by
      have h3 : (w1.data ++ s.data ++ w2.data).length = 0 := by rw [this]; rfl
      simp only [List.length_append] at h3
      exact List.length_eq_zero.mp (by omega)
    exact hs1 (String.ext hs)

/-! ## Claims about `parseSize` -/

/-- C1, as stated, fails: the digit run `9007199254740992` (2^53) fits `int64` and
the unit `k` stands for 2^10, but `parseSize "9007199254740992k"` returns
-9223372036854775808, not the product 2^63. -/
theorem parseSize_product_wraps :
    (SizeSpec.mk "9007199254740992".data [] ['k'] []).Valid ∧
      digitsValue "9007199254740992".data < 2 ^ 63 ∧
      unitMultiplier ['k'] = some (2 ^ 10) ∧
      parseSize "9007199254740992k" = .ok (-9223372036854775808) ∧
      parseSize "9007199254740992k" ≠
        .ok ((digitsValue "9007199254740992".data * 2 ^ 10 : Nat) : Int) := by
  decide

/-- C1, amended: for every size specification made of a decimal digit run,
optional white space (space, tab, newline, form feed, carriage return), an
optional unit letter k, m, g or t in either case with multiplier `m` (1 without
a unit, 2^10, 2^20, 2^30, 2^40) and an optional trailing b/B, such that the
digit value times `m` fits a signed 64-bit integer, `parseSize` succeeds and
returns exactly that product. -/
theorem parseSize_exact (p : SizeSpec) (m : Nat) (hv : p.Valid)
    (hm : unitMultiplier p.unit = some m) (hfit : digitsValue p.digits * m < 2 ^ 63) :
    parseSize (String.mk p.text) = .ok ((digitsValue p.digits * m : Nat) : Int) := by
  have hm1 : 1 ≤ m := by
    rcases unit_lower_cases hm with ⟨-, rfl⟩ | ⟨-, rfl⟩ | ⟨-, rfl⟩ | ⟨-, rfl⟩ | ⟨-, rfl⟩ <;>
      norm_num
  have hd : digitsValue p.digits < 2 ^ 63 :=
    lt_of_le_of_lt (Nat.le_mul_of_pos_right _ hm1) hfit
  have hw : wrapInt64 ((digitsValue p.digits : Int) * m) = ((digitsValue p.digits * m : Nat) : Int) := by
    rw [Nat.cast_mul]
    apply wrapInt64_of_fits
    · exact mul_nonneg (Int.natCast_nonneg _) (Int.natCast_nonneg _)
    · exact_mod_cast hfit
  rw [parseSize_text p m hv hm, if_pos hd, hw]

/-- C1, amended, at the examples of the specification: "10KB" gives 10240, "1M" gives 1048576 and
"0" gives 0. -/
theorem parseSize_exact_examples :
    parseSize "10KB" = .ok 10240 ∧ parseSize "1M" = .ok 1048576 ∧ parseSize "0" = .ok 0 :=
  ⟨(parseSize_exact ⟨['1', '0'], [], ['K'], ['B']⟩ (2 ^ 10) (by decide) (by decide)
      (by decide)).trans (by decide),
   (parseSize_exact ⟨['1'], [], ['M'], []⟩ (2 ^ 20) (by decide) (by decide)
      (by decide)).trans (by decide),
   (parseSize_exact ⟨['0'], [], [], []⟩ 1 (by decide) (by decide) (by decide)).trans (by decide)⟩

/-- C2: every string other than "" and "-1" whose white-space-trimmed form does
not have the shape of the size grammar (one or more decimal digits, optional
white space, optional unit letter k, m, g or t in either case, optional
trailing b) is rejected by `parseSize` with the invalid-size-format error, and
the message of the error names the string as given. -/
theorem parseSize_rejects_malformed (s : String) (h1 : s ≠ "") (h2 : s ≠ "-1")
    (h : ¬ MatchesGrammar (trimSpace s.data)) :
    parseSize s = .error (.invalidSizeFormat s) ∧
      ∀ e, parseSize s = .error e → e.message = "invalid size format: " ++ s := by
  have hnil : findStringSubmatch (trimSpace s.data) = [] := by
    by_contra hne
    exact h ((findStringSubmatch_ne_nil_iff _).mp hne)
  have hp : parseSize s = .error (.invalidSizeFormat s) := by
    unfold parseSize
    rw [if_neg (by tauto)]
    simp [hnil]
  refine ⟨hp, ?_⟩
  intro e he
  rw [hp] at he
  cases he
  rfl

/-- C2 at the examples of the specification: `parseSize` fails on "10XB", "abc" and "-5"
with the invalid-size-format error. -/
theorem parseSize_rejects_examples :
    parseSize "10XB" = .error (.invalidSizeFormat "10XB") ∧
      parseSize "abc" = .error (.invalidSizeFormat "abc") ∧
      parseSize "-5" = .error (.invalidSizeFormat "-5") :=
  ⟨(parseSize_rejects_malformed "10XB" (by decide) (by decide)
      (fun h => absurd ((findStringSubmatch_ne_nil_iff _).mpr h) (by decide))).1,
   (parseSize_rejects_malformed "abc" (by decide) (by decide)
      (fun h => absurd ((findStringSubmatch_ne_nil_iff _).mpr h) (by decide))).1,
   (parseSize_rejects_malformed "-5" (by decide) (by decide)
      (fun h => absurd ((findStringSubmatch_ne_nil_iff _).mpr h) (by decide))).1⟩

/-- C6: `parseSize ""` and `parseSize "-1"` both succeed with the unlimited
sentinel -1. -/
theorem parseSize_unlimited : parseSize "" = .ok (-1) ∧ parseSize "-1" = .ok (-1) := by
  decide

/-- C7, as stated, fails: "-1" parses to the unlimited sentinel, but with one
leading space it is rejected, because the sentinel test comes before the trim. -/
theorem parseSize_padded_sentinel :
    (∀ c ∈ " ".data, isSpace c = true) ∧ parseSize "-1" = .ok (-1) ∧
      parseSize (" " ++ "-1" ++ "") = .error (.invalidSizeFormat " -1") := by
  decide

/-- C7, amended: for every string `s` other than "" and "-1", white space before
and after `s` does not change whether `parseSize` succeeds nor the limit it
returns. -/
theorem parseSize_pad (s w1 w2 : String) (hs1 : s ≠ "") (hs2 : s ≠ "-1")
    (h1 : ∀ c ∈ w1.data, isSpace c = true) (h2 : ∀ c ∈ w2.data, isSpace c = true) (v : Int) :
    parseSize (w1 ++ s ++ w2) = .ok v ↔ parseSize s = .ok v := by
  have hs : ¬ (s = "-1" ∨ s = "") := by tauto
  unfold parseSize
  simp only [if_neg (pad_ne_sentinel w1 s w2 hs1 hs2 h1 h2), if_neg hs, String.data_append,
    trimSpace_pad _ _ _ h1 h2]
  by_cases hl : (findStringSubmatch (trimSpace s.data)).length < 2
  · simp only [if_pos hl]
    simp
  · simp only [if_neg hl]

/-- C7, amended, at " 10 kb " (that is "10 kb" between two spaces): both parse
to 10240. -/
theorem parseSize_pad_example :
    parseSize (" " ++ "10 kb" ++ " ") = .ok 10240 ↔ parseSize "10 kb" = .ok 10240 :=
  parseSize_pad "10 kb" " " " " (by decide) (by decide) (by decide) (by decide) 10240

/-- C8, as stated, fails: on the digit run 9223372036854775808 (2^63)
`parseSize` fails with the range error of `strconv.ParseInt`, which is not the
invalid-size-format error. -/
theorem parseSize_range_not_format :
    parseSize "9223372036854775808" = .error (.numError "9223372036854775808" .errRange) ∧
      ∀ s, parseSize "9223372036854775808" ≠ .error (.invalidSizeFormat s) := by
  have h : parseSize "9223372036854775808" =
      .error (.numError "9223372036854775808" .errRange) := by decide
  refine ⟨h, fun s hs => ?_⟩
  rw [h] at hs
  cases hs

/-- C8, amended: for every size specification that matches the grammar and whose
digit run denotes a value above 2^63 - 1, `parseSize` fails, and the failure is
the range error of `strconv.ParseInt` for the digit run, returned unchanged
(message `strconv.ParseInt: parsing "<digits>": value out of range`). -/
theorem parseSize_range_error (p : SizeSpec) (hv : p.Valid)
    (hbig : 2 ^ 63 - 1 < digitsValue p.digits) :
    parseSize (String.mk p.text) = .error (.numError (String.mk p.digits) .errRange) ∧
      (ParseSizeError.numError (String.mk p.digits) .errRange).message =
        "strconv.ParseInt: parsing \"" ++ String.mk p.digits ++ "\": value out of range" := by
  have hs : (unitMultiplier p.unit).isSome = true := hv.2.2.2.1
  obtain ⟨m, hm⟩ := Option.isSome_iff_exists.mp hs
  refine ⟨?_, rfl⟩
  rw [parseSize_text p m hv hm, if_neg (by omega)]

/-- C8, amended, at "99999999999999999999 KB". -/
theorem parseSize_range_error_example :
    parseSize "99999999999999999999 KB" =
      .error (.numError "99999999999999999999" .errRange) :=
  (parseSize_range_error ⟨"99999999999999999999".data, [' '], ['K'], ['B']⟩ (by decide)
    (by decide)).1

/-- C10 fails on the code: "9223372036854775807k" is neither "" nor "-1",
`parseSize` succeeds on it, and the value returned is -1024. -/
theorem parseSize_negative_limit :
    parseSize "9223372036854775807k" = .ok (-1024) ∧ (-1024 : Int) < 0 := by
  decide

/-! ## Reads of the bounded stream -/

theorem Source.read_nil (ch n : Nat) (hn : 0 < n) :
    Source.read ⟨[], ch⟩ n = ([], .eof, ⟨[], ch⟩) := by
  simp [Source.read, Nat.pos_iff_ne_zero.mp hn]

theorem Source.read_ne_nil (p : List UInt8) (ch n : Nat) (hn : 0 < n) (hp : p ≠ []) :
    Source.read ⟨p, ch⟩ n =
      (p.take (min n (ch + 1)), .ok, ⟨p.drop (min n (ch + 1)), ch⟩) := by
  simp [Source.read, Nat.pos_iff_ne_zero.mp hn, hp]

theorem BoundedStream.read_at_limit_nil (ch l k n : Nat) (cl : Bool) (h : l - k = 0) :
    BoundedStream.read ⟨⟨[], ch⟩, .bytes l, k, cl⟩ n = ([], .eof, ⟨⟨[], ch⟩, .bytes l, k, cl⟩) := by
  simp [BoundedStream.read, h, Source.read_nil]

theorem BoundedStream.read_at_limit_more (p : List UInt8) (ch l k n : Nat) (cl : Bool)
    (h : l - k = 0) (hp : p ≠ []) :
    BoundedStream.read ⟨⟨p, ch⟩, .bytes l, k, cl⟩ n =
      ([], .bodyTooLarge, ⟨⟨p.drop 1, ch⟩, .bytes l, k, cl⟩) := by
  have h1 : min 1 (ch + 1) = 1 := by omega
  cases p with
  | nil => exact absurd rfl hp
  | cons x xs => simp [BoundedStream.read, h, Source.read_ne_nil, h1]

theorem BoundedStream.read_below_limit_nil (ch l k n : Nat) (cl : Bool) (h : l - k ≠ 0)
    (hn : 0 < n) :
    BoundedStream.read ⟨⟨[], ch⟩, .bytes l, k, cl⟩ n = ([], .eof, ⟨⟨[], ch⟩, .bytes l, k, cl⟩) := by
  have hm : 0 < min n (l - k) := by omega
  simp [BoundedStream.read, h, Source.read_nil _ _ hm]

theorem BoundedStream.read_below_limit (p : List UInt8) (ch l k n : Nat) (cl : Bool)
    (h : l - k ≠ 0) (hn : 0 < n) (hp : p ≠ []) :
    BoundedStream.read ⟨⟨p, ch⟩, .bytes l, k, cl⟩ n =
      (p.take (min (min n (l - k)) (ch + 1)), .ok,
        ⟨⟨p.drop (min (min n (l - k)) (ch + 1)), ch⟩, .bytes l,
          k + (p.take (min (min n (l - k)) (ch + 1))).length, cl⟩) := by
  have hm : 0 < min n (l - k) := by omega
  simp [BoundedStream.read, h, Source.read_ne_nil _ _ _ hm hp]

/-- A read never takes the count of delivered bytes above a finite limit. -/
theorem BoundedStream.read_delivered_le (b : BoundedStream) (l n : Nat) (hl : b.limit = .bytes l)
    (hk : b.delivered ≤ l) :
    (b.read n).2.2.limit = .bytes l ∧ (b.read n).2.2.delivered ≤ l ∧
      (b.read n).2.2.delivered = b.delivered + (b.read n).1.length := by
  obtain ⟨⟨p, ch⟩, lim, k, cl⟩ := b
  simp only at hl hk
  subst hl
  by_cases h : l - k = 0
  · by_cases hp : p = []
    · subst hp
      rw [BoundedStream.read_at_limit_nil _ _ _ _ _ h]
      exact ⟨rfl, hk, rfl⟩
    · rw [BoundedStream.read_at_limit_more _ _ _ _ _ _ h hp]
      exact ⟨rfl, hk, rfl⟩
  · have e : BoundedStream.read ⟨⟨p, ch⟩, .bytes l, k, cl⟩ n =
        ((Source.read ⟨p, ch⟩ (min n (l - k))).1, (Source.read ⟨p, ch⟩ (min n (l - k))).2.1,
          ⟨(Source.read ⟨p, ch⟩ (min n (l - k))).2.2, .bytes l,
            k + (Source.read ⟨p, ch⟩ (min n (l - k))).1.length, cl⟩) := by
      simp [BoundedStream.read, h]
    have hlen : (Source.read ⟨p, ch⟩ (min n (l - k))).1.length ≤ min n (l - k) := by
      unfold Source.read
      split_ifs
      · exact Nat.zero_le _
      · exact Nat.zero_le _
      · simp only [List.length_take]
        omega
    rw [e]
    refine ⟨rfl, ?_, rfl⟩
    show k + _ ≤ l
    omega

/-- However the stream is read, the count of delivered bytes stays within a
finite limit. -/
theorem BoundedStream.readMany_delivered_le (reads : List Nat) :
    ∀ (b : BoundedStream) (l : Nat), b.limit = .bytes l → b.delivered ≤ l →
      (b.readMany reads).delivered ≤ l := by
  induction reads with
  | nil => intro b l _ hk; exact hk
  | cons n ns ih =>
    intro b l hl hk
    have := BoundedStream.read_delivered_le b l n hl hk
    exact ih _ l this.1 this.2.1

/-! ## Reading a bounded stream to the end -/

theorem take_take_drop (p : List UInt8) (j m : Nat) (hjm : j ≤ m) :
    p.take j ++ (p.drop j).take (m - (p.take j).length) = p.take m := by
  by_cases hlen : j ≤ p.length
  · have e : (p.take j).length = j := by simp [List.length_take, hlen]
    rw [e]
    have := List.take_add p j (m - j)
    rw [← this]
    congr 1
    omega
  · have hd : p.drop j = [] := List.drop_eq_nil_of_le (by omega)
    rw [hd, List.take_nil, List.append_nil, List.take_of_length_le (by omega),
      List.take_of_length_le (by omega)]

/-- Reading a stream with a finite limit to the end, from any state within the
limit and with fuel above the number of pending bytes: the bytes up to the
limit are returned, with no error when the source ends within the limit and
`ErrBodyTooLarge` otherwise. -/
theorem readAllFuel_bytes (bufSize l : Nat) (hbuf : 0 < bufSize) :
    ∀ (fuel : Nat) (p : List UInt8) (ch k : Nat) (cl : Bool) (acc : List UInt8),
      k ≤ l → p.length < fuel →
      ∃ b1, readAllFuel bufSize fuel ⟨⟨p, ch⟩, .bytes l, k, cl⟩ acc =
          some ((acc ++ p.take (l - k),
            if p.length ≤ l - k then none else some .errBodyTooLarge), b1) ∧
        b1.delivered = k + min p.length (l - k) := by
  intro fuel
  induction fuel with
  | zero => intro p ch k cl acc _ hf; exact absurd hf (Nat.not_lt_zero _)
  | succ f ih =>
    intro p ch k cl acc hk hf
    unfold readAllFuel
    by_cases h : l - k = 0
    · by_cases hp : p = []
      · subst hp
        rw [BoundedStream.read_at_limit_nil _ _ _ _ _ h]
        exact ⟨⟨⟨[], ch⟩, .bytes l, k, cl⟩, by simp, by simp⟩
      · rw [BoundedStream.read_at_limit_more _ _ _ _ _ _ h hp]
        have hpl : ¬ p.length ≤ l - k := by
          have := List.length_pos.mpr hp
          omega
        refine ⟨⟨⟨p.drop 1, ch⟩, .bytes l, k, cl⟩, ?_, ?_⟩
        · simp only [h, List.take_zero, List.append_nil]
          rw [if_neg (by have := List.length_pos.mpr hp; omega)]
        · simp [h]
    · by_cases hp : p = []
      · subst hp
        rw [BoundedStream.read_below_limit_nil _ _ _ _ _ h hbuf]
        exact ⟨⟨⟨[], ch⟩, .bytes l, k, cl⟩, by simp, by simp⟩
      · rw [BoundedStream.read_below_limit _ _ _ _ _ _ h hbuf hp]
        have hpos := List.length_pos.mpr hp
        have hj : 0 < min (min bufSize (l - k)) (ch + 1) := by omega
        have hjm : min (min bufSize (l - k)) (ch + 1) ≤ l - k := by omega
        generalize min (min bufSize (l - k)) (ch + 1) = j at hj hjm
        have hlt : (p.take j).length = min j p.length := List.length_take _ _
        obtain ⟨b1, hb1, hd1⟩ := ih (p.drop j) ch (k + (p.take j).length) cl (acc ++ p.take j)
          (by omega) (by rw [List.length_drop]; omega)
        refine ⟨b1, ?_, ?_⟩
        · simp only
          rw [hb1]
          have e1 : l - (k + (p.take j).length) = (l - k) - (p.take j).length := by omega
          rw [e1, List.append_assoc, take_take_drop p j (l - k) hjm]
          have e2 : ((p.drop j).length ≤ l - k - (p.take j).length) ↔ (p.length ≤ l - k) := by
            rw [List.length_drop, hlt]; omega
          simp only [e2]
        · rw [hd1, List.length_drop, hlt]; omega

/-- Reading an unlimited stream to the end returns every pending byte and no
error, with fuel above the number of pending bytes. -/
theorem readAllFuel_unlimited (bufSize : Nat) (hbuf : 0 < bufSize) :
    ∀ (fuel : Nat) (p : List UInt8) (ch k : Nat) (cl : Bool) (acc : List UInt8),
      p.length < fuel →
      ∃ b1, readAllFuel bufSize fuel ⟨⟨p, ch⟩, .unlimited, k, cl⟩ acc =
          some ((acc ++ p, none), b1) := by
  intro fuel
  induction fuel with
  | zero => intro p ch k cl acc hf; exact absurd hf (Nat.not_lt_zero _)
  | succ f ih =>
    intro p ch k cl acc hf
    unfold readAllFuel
    by_cases hp : p = []
    · subst hp
      simp only [BoundedStream.read, Source.read_nil _ _ hbuf]
      exact ⟨⟨⟨[], ch⟩, .unlimited, k, cl⟩, by simp⟩
    · simp only [BoundedStream.read, Source.read_ne_nil _ _ _ hbuf hp]
      have hpos := List.length_pos.mpr hp
      have hj : 0 < min bufSize (ch + 1) := by omega
      generalize min bufSize (ch + 1) = j at hj
      obtain ⟨b1, hb1⟩ := ih (p.drop j) ch k cl (acc ++ p.take j)
        (by rw [List.length_drop]; omega)
      refine ⟨b1, ?_⟩
      rw [hb1, List.append_assoc, List.take_append_drop]

/-- The fuel of `BoundedStream.readAll` suffices: on a fresh stream it returns
what `readAllFuel` returns and never its default. -/
theorem BoundedStream.readAll_fresh (bufSize : Nat) (hbuf : 0 < bufSize) (source : Source)
    (limit : SizeLimit) :
    readAllFuel bufSize (source.pending.length + 1) (NewMaxBytesReader source limit) [] =
      some ((NewMaxBytesReader source limit).readAll bufSize) := by
  obtain ⟨p, ch⟩ := source
  cases limit with
  | unlimited =>
    obtain ⟨b1, hb1⟩ := readAllFuel_unlimited bufSize hbuf (p.length + 1) p ch 0 false []
      (Nat.lt_succ_self _)
    simp only [BoundedStream.readAll, NewMaxBytesReader, hb1, Option.getD_some]
  | bytes l =>
    obtain ⟨b1, hb1, -⟩ := readAllFuel_bytes bufSize l hbuf (p.length + 1) p ch 0 false []
      (Nat.zero_le _) (Nat.lt_succ_self _)
    simp only [BoundedStream.readAll, NewMaxBytesReader, hb1, Option.getD_some]

/-- With the bounded stream of the specification as body reader, a body of `N`
bytes is read completely and without error when the limit is the unlimited
sentinel -1 or a byte count of at least `N`. -/
theorem specBodyReader_readAll_within (bufSize : Nat) (hbuf : 0 < bufSize) (source : Source)
    (maxBytes : Int) (h : maxBytes = -1 ∨ (source.pending.length : Int) ≤ maxBytes) :
    ((specBodyReader bufSize).readAll
      ((specBodyReader bufSize).newMaxBytesReader source maxBytes)).1 =
        (source.pending, none) := by
  obtain ⟨p, ch⟩ := source
  have hf := BoundedStream.readAll_fresh bufSize hbuf ⟨p, ch⟩ (SizeLimit.ofInt64 maxBytes)
  simp only [specBodyReader]
  by_cases hm : maxBytes = -1
  · have e : SizeLimit.ofInt64 maxBytes = .unlimited := by simp [SizeLimit.ofInt64, hm]
    rw [e] at hf ⊢
    obtain ⟨b1, hb1⟩ := readAllFuel_unlimited bufSize hbuf (p.length + 1) p ch 0 false []
      (Nat.lt_succ_self _)
    rw [NewMaxBytesReader, hb1] at hf
    rw [NewMaxBytesReader, ← Option.some.inj hf]
    rfl
  · have hle : (p.length : Int) ≤ maxBytes := by
      rcases h with h | h
      · exact absurd h hm
      · exact h
    have e : SizeLimit.ofInt64 maxBytes = .bytes maxBytes.toNat := by simp [SizeLimit.ofInt64, hm]
    have hle2 : p.length ≤ maxBytes.toNat := by omega
    rw [e] at hf ⊢
    obtain ⟨b1, hb1, -⟩ := readAllFuel_bytes bufSize maxBytes.toNat hbuf (p.length + 1) p ch 0
      false [] (Nat.zero_le _) (Nat.lt_succ_self _)
    rw [NewMaxBytesReader, hb1] at hf
    rw [NewMaxBytesReader, ← Option.some.inj hf]
    simp only [Nat.sub_zero, List.nil_append, if_pos hle2, List.take_of_length_le hle2]

/-! ## Claims about the bounded reader and `processAndPrintResponse` -/

/-- C3: for the bounded reader built by `NewMaxBytesReader` with a finite limit
`l` over a source of `N` pending bytes, reading to the end (with any non-empty
buffer, any short reads of the source, and fuel above `N`) returns a result: all
`N` bytes and a normal end when `N ≤ l`; exactly the first `l` bytes and then
`ErrBodyTooLarge` when `N > l`; and whatever reads are made, the count of
delivered bytes never exceeds `l`. -/
theorem maxBytesReader_readAll (source : Source) (l bufSize fuel : Nat) (hbuf : 0 < bufSize)
    (hfuel : source.pending.length < fuel) :
    (source.pending.length ≤ l →
      ∃ b1, readAllFuel bufSize fuel (NewMaxBytesReader source (.bytes l)) [] =
          some ((source.pending, none), b1) ∧ b1.delivered = source.pending.length) ∧
    (l < source.pending.length →
      ∃ b1, readAllFuel bufSize fuel (NewMaxBytesReader source (.bytes l)) [] =
          some ((source.pending.take l, some .errBodyTooLarge), b1) ∧
        (source.pending.take l).length = l ∧ b1.delivered = l) ∧
    (∀ reads : List Nat,
      ((NewMaxBytesReader source (.bytes l)).readMany reads).delivered ≤ l) := by
  obtain ⟨p, ch⟩ := source
  obtain ⟨b1, hb1, hd1⟩ := readAllFuel_bytes bufSize l hbuf fuel p ch 0 false [] (Nat.zero_le _) hfuel
  simp only [Nat.sub_zero, List.nil_append, Nat.zero_add] at hb1 hd1
  refine ⟨fun hle => ⟨b1, ?_, ?_⟩, fun hlt => ⟨b1, ?_, ?_, ?_⟩, fun reads => ?_⟩
  · simp only at hle
    rw [NewMaxBytesReader, hb1, if_pos hle, List.take_of_length_le hle]
  · simp only at hle
    rw [hd1]; exact Nat.min_eq_left hle
  · simp only at hlt
    rw [NewMaxBytesReader, hb1, if_neg (by omega)]
  · simp only at hlt
    show (List.take l p).length = l
    rw [List.length_take]; omega
  · simp only at hlt
    rw [hd1]; omega
  · exact BoundedStream.readMany_delivered_le reads _ l rfl (Nat.zero_le _)

/-- C3 at a source of five bytes handed out at most two at a time: with limit 3
the first three bytes come and then `ErrBodyTooLarge`; with limit 5 all five
bytes come and the stream ends normally. -/
theorem maxBytesReader_readAll_example :
    (∃ b1, readAllFuel 4 6 (NewMaxBytesReader ⟨[1, 2, 3, 4, 5], 1⟩ (.bytes 3)) [] =
        some (([1, 2, 3], some .errBodyTooLarge), b1) ∧ [1, 2, 3].length = 3 ∧
        b1.delivered = 3) ∧
    (∃ b1, readAllFuel 4 6 (NewMaxBytesReader ⟨[1, 2, 3, 4, 5], 1⟩ (.bytes 5)) [] =
        some (([1, 2, 3, 4, 5], none), b1) ∧ b1.delivered = 5) :=
  ⟨(maxBytesReader_readAll ⟨[1, 2, 3, 4, 5], 1⟩ 3 4 6 (by decide) (by decide)).2.1 (by decide),
   (maxBytesReader_readAll ⟨[1, 2, 3, 4, 5], 1⟩ 5 4 6 (by decide) (by decide)).1 (by decide)⟩

/-- C4: the limit `processAndPrintResponse` applies to the body: 1048576 bytes
when `--max-size` is empty and stdout is a terminal, unlimited (-1) when it is
empty and stdout is not a terminal, and `parseSize` of `--max-size` when it is
not empty, terminal or not (so "-1" is no limit even on a terminal); the body is
wrapped with that limit, and with no limit when the size does not parse. -/
theorem responseLimit_policy :
    responseLimit "" true = .ok 1048576 ∧ responseLimit "" false = .ok (-1) ∧
    (∀ (s : String) (t : Bool), s ≠ "" → responseLimit s t = parseSize s) ∧
    responseLimit "-1" true = .ok (-1) ∧
    (∀ (β ρ V : Type) (g : Globals) (R : BodyReader β ρ) (J : JSONCodec V) (resp : Response β),
      (processAndPrintResponse g R J resp).limitedBody =
        match responseLimit g.maxSizeStr g.stdoutIsTerminal with
        | .error _ => none
        | .ok maxBytes =>
          if resp.Method = "HEAD" then some (R.close (R.newMaxBytesReader resp.Body maxBytes))
          else some (R.close (R.readAll (R.newMaxBytesReader resp.Body maxBytes)).2)) := by
  refine ⟨by decide, by decide, ?_, by decide, ?_⟩
  · intro s t hs
    simp [responseLimit, effectiveMaxSize, hs]
  · intro β ρ V g R J resp
    unfold processAndPrintResponse
    cases responseLimit g.maxSizeStr g.stdoutIsTerminal with
    | error e => rfl
    | ok maxBytes =>
      simp only
      repeat' (first | rfl | split)

/-- C4 at `--max-size 10KB`: the limit is 10240 bytes on a terminal and off. -/
theorem responseLimit_policy_example :
    responseLimit "10KB" true = parseSize "10KB" ∧ responseLimit "10KB" false = .ok 10240 :=
  ⟨responseLimit_policy.2.2.1 "10KB" true (by decide),
   (responseLimit_policy.2.2.1 "10KB" false (by decide)).trans (by decide)⟩

/-- C5, as stated, fails: with `--max-size abc` a HEAD response is not printed at
all; `processAndPrintResponse` returns the error of `parseSize` before any
output. -/
theorem head_with_malformed_max_size :
    (processAndPrintResponse ⟨false, "abc", initColors false, false⟩ (specBodyReader 512)
        sampleCodec (sampleResponse "HEAD" "text/plain" [])).err =
      some (.parse (.invalidSizeFormat "abc")) ∧
    (processAndPrintResponse ⟨false, "abc", initColors false, false⟩ (specBodyReader 512)
        sampleCodec (sampleResponse "HEAD" "text/plain" [])).stdout = [] := by
  decide

/-- C5, amended: for every response to a HEAD request and every `--max-size`
that `parseSize` accepts (with the terminal default when it is empty),
`processAndPrintResponse` emits only the protocol/status line, one line per
header key with its values joined, and a blank line, closes the body without
reading it, and returns no error; for a `--max-size` that `parseSize` rejects
it emits nothing and returns that error. -/
theorem processAndPrintResponse_head {β ρ V : Type} (g : Globals) (R : BodyReader β ρ)
    (J : JSONCodec V) (resp : Response β) (hm : resp.Method = "HEAD") :
    (∀ maxBytes, responseLimit g.maxSizeStr g.stdoutIsTerminal = .ok maxBytes →
      (processAndPrintResponse g R J resp).stdout = printHeaders g.colors resp ∧
      (printHeaders g.colors resp).length = resp.Header.length + 2 ∧
      (processAndPrintResponse g R J resp).err = none ∧
      (processAndPrintResponse g R J resp).limitedBody =
        some (R.close (R.newMaxBytesReader resp.Body maxBytes))) ∧
    (∀ e, responseLimit g.maxSizeStr g.stdoutIsTerminal = .error e →
      (processAndPrintResponse g R J resp).stdout = [] ∧
      (processAndPrintResponse g R J resp).err = some (.parse e) ∧
      (processAndPrintResponse g R J resp).limitedBody = none) := by
  constructor
  · intro maxBytes hl
    unfold processAndPrintResponse
    simp only [hl, hm, or_true, if_true]
    refine ⟨trivial, ?_, trivial, trivial⟩
    simp [printHeaders]
  · intro e hl
    unfold processAndPrintResponse
    simp only [hl]
    exact ⟨trivial, trivial, trivial⟩

/-- C5, amended, at a HEAD response with `--max-size 1KB` and a body of three
bytes waiting: the status line, the header line and the blank line are written,
no error is returned, and the three bytes are still pending in the closed body. -/
theorem processAndPrintResponse_head_example :
    (sampleResponse "HEAD" "text/plain" [1, 2, 3]).Method = "HEAD" ∧
    (processAndPrintResponse ⟨false, "1KB", initColors false, false⟩ (specBodyReader 512)
        sampleCodec (sampleResponse "HEAD" "text/plain" [1, 2, 3])).stdout =
      [.text "HTTP/1.1 200 OK\n", .text "Content-Type: text/plain\n", .text "\n"] ∧
    (processAndPrintResponse ⟨false, "1KB", initColors false, false⟩ (specBodyReader 512)
        sampleCodec (sampleResponse "HEAD" "text/plain" [1, 2, 3])).err = none ∧
    (processAndPrintResponse ⟨false, "1KB", initColors false, false⟩ (specBodyReader 512)
        sampleCodec (sampleResponse "HEAD" "text/plain" [1, 2, 3])).limitedBody =
      some ⟨⟨[1, 2, 3], 0⟩, .bytes 1024, 0, true⟩ :=
  have h := (processAndPrintResponse_head ⟨false, "1KB", initColors false, false⟩
    (specBodyReader 512) sampleCodec (sampleResponse "HEAD" "text/plain" [1, 2, 3]) rfl).1
    1024 (by decide)
  ⟨rfl, h.1.trans (by decide), h.2.2.1, h.2.2.2.trans (by decide)⟩

/-- C9: for every response to a request other than HEAD whose body is read to
the end with no error, if the Content-Type header does not contain
"application/json", or it does but the body does not parse as JSON, then
`processAndPrintResponse` writes, after the header block when `-i` is set, the
body bytes as they are followed by the newline of `fmt.Println`, and returns no
error. -/
theorem processAndPrintResponse_raw {β ρ V : Type} (g : Globals) (R : BodyReader β ρ)
    (J : JSONCodec V) (resp : Response β) (maxBytes : Int) (body : List UInt8)
    (hm : resp.Method ≠ "HEAD")
    (hl : responseLimit g.maxSizeStr g.stdoutIsTerminal = .ok maxBytes)
    (hr : (R.readAll (R.newMaxBytesReader resp.Body maxBytes)).1 = (body, none))
    (hj : stringsContains (headerGet resp.Header "Content-Type").data
        "application/json".data = false ∨ J.unmarshal body = none) :
    (processAndPrintResponse g R J resp).stdout =
      (if g.includeHeaders = true then printHeaders g.colors resp else []) ++
        [.bytes body, .text "\n"] ∧
    (processAndPrintResponse g R J resp).err = none := by
  have hb : (R.readAll (R.newMaxBytesReader resp.Body maxBytes)).1.1 = body := by rw [hr]
  have he : (R.readAll (R.newMaxBytesReader resp.Body maxBytes)).1.2 = none := by rw [hr]
  unfold processAndPrintResponse
  simp only [hl, hm, or_false, if_false, he, hb]
  rcases hj with hj | hj
  · simp only [hj, Bool.false_eq_true, if_false, and_self]
  · simp only [hj]
    split_ifs <;> exact ⟨rfl, rfl⟩

/-- C9 at the seven bytes of the JSON object with key a and value 1: with
content-type text/plain they are written as they are, and so are the two bytes
of an unclosed array with content-type application/json, which do not parse. -/
theorem processAndPrintResponse_raw_example :
    (processAndPrintResponse ⟨false, "", initColors false, false⟩ (specBodyReader 512)
        sampleCodec (sampleResponse "GET" "text/plain" [123, 34, 97, 34, 58, 49, 125])).stdout =
      [.bytes [123, 34, 97, 34, 58, 49, 125], .text "\n"] ∧
    (processAndPrintResponse ⟨false, "", initColors false, false⟩ (specBodyReader 512)
        sampleCodec (sampleResponse "GET" "application/json" [91, 49])).stdout =
      [.bytes [91, 49], .text "\n"] :=
  ⟨(processAndPrintResponse_raw ⟨false, "", initColors false, false⟩ (specBodyReader 512)
      sampleCodec (sampleResponse "GET" "text/plain" [123, 34, 97, 34, 58, 49, 125]) (-1)
      [123, 34, 97, 34, 58, 49, 125] (by decide) (by decide) (by decide)
      (Or.inl (by decide))).1,
   (processAndPrintResponse_raw ⟨false, "", initColors false, false⟩ (specBodyReader 512)
      sampleCodec (sampleResponse "GET" "application/json" [91, 49]) (-1)
      [91, 49] (by decide) (by decide) (by decide) (Or.inr (by decide))).1⟩

end Hurl
